import Mathlib

/-!
Verification of the anchor-driven dynamic field locator of `auto_selecter1`.

The development shallowly embeds the Rust sources:
  * `smp/scraper_logic.rs` and `smp/main.rs` (the orchestrated scraper), and
  * `src/main.rs` (the ranked price / delta / percent finders
    `find_price_selector_near_anchor`, `find_ratio_selector_near_zenjitsuhi`,
    `find_percent_selector_near_zenjitsuhi`).

HTML documents (already parsed, as produced by the `scraper` crate) are
modelled as a tree of element nodes (tag name, list of class tokens, children)
and text leaves.  Nodes are addressed by their child-index paths from the
document root; document order is pre-order traversal, exactly the order of
`ego_tree`'s `descendants()` iterator used by the code.

Rust string primitives that the code relies on (`str::trim`,
`str::parse::<f64>`, `char::is_numeric`, byte `len`, `replace`,
`to_uppercase`) are modelled explicitly below; each model notes the fragment
of the Rust semantics it covers.
-/

/-! ## Rust string primitives -/

/-- Model of the whitespace class used by `str::trim`.  Rust trims Unicode
`White_Space`; we cover the ASCII whitespace characters plus the common
non-ASCII spaces (NBSP, ideographic space) — exact on every string appearing
in this development. -/
def rustIsWs (c : Char) : Bool :=
  c = ' ' || c = '\t' || c = '\n' || c = '\r' || c = '\x0b' || c = '\x0c' ||
  c = ' ' || c = '　'

/-- Rust `str::trim` on a character list: drop leading and trailing whitespace. -/
def trimChars (l : List Char) : List Char :=
  ((l.dropWhile rustIsWs).reverse.dropWhile rustIsWs).reverse

/-- Rust `str::replace(",", "")`: remove every comma. -/
def dropCommas (l : List Char) : List Char :=
  l.filter (fun c => c ≠ ',')

/-- UTF-8 byte width of one scalar value (what Rust's byte-oriented
`str::len` counts per character). -/
def charUtf8Len (c : Char) : Nat :=
  if c.toNat < 0x80 then 1
  else if c.toNat < 0x800 then 2
  else if c.toNat < 0x10000 then 3
  else 4

/-- Model of Rust `str::len`: the UTF-8 byte length. -/
def rustStrLenL (l : List Char) : Nat :=
  (l.map charUtf8Len).sum

def rustStrLen (s : String) : Nat := rustStrLenL s.data

/-- Model of `char::is_numeric` (Unicode general category N).  Exact on
ASCII, where the numeric characters are precisely the decimal digits, and on
the Arabic-Indic (U+0660–U+0669), Extended Arabic-Indic (U+06F0–U+06F9) and
Devanagari (U+0966–U+096F) digit blocks; other non-ASCII numerals are not
modelled (none appears in this development). -/
def rustIsNumeric (c : Char) : Bool :=
  c.isDigit ||
  (0x660 ≤ c.toNat && c.toNat ≤ 0x669) ||
  (0x6f0 ≤ c.toNat && c.toNat ≤ 0x6f9) ||
  (0x966 ≤ c.toNat && c.toNat ≤ 0x96f)

/-- Substring containment, modelling Rust `str::contains(&str)`. -/
def listContainsStr (hay needle : List Char) : Bool :=
  hay.tails.any (fun t => needle.isPrefixOf t)

def strContainsStr (hay needle : String) : Bool :=
  listContainsStr hay.data needle.data

/-- Model of Rust `str::to_uppercase`, restricted to per-character ASCII
uppercasing (`Char.toUpper`); multi-character expansions such as ß → SS and
non-ASCII case mappings are not modelled (all comparisons below are against
ASCII literals). -/
def rustToUppercase (s : String) : String :=
  ⟨s.data.map Char.toUpper⟩

/-- Rust `str::ends_with(&str)`. -/
def strEndsWith (s suffixStr : String) : Bool :=
  suffixStr.data.isSuffixOf s.data

/-! ### Rust `str::parse::<f64>`

The grammar accepted by `f64::from_str` (Rust standard library):

  Float  ::= Sign? ( 'inf' | 'infinity' | 'nan' | Number )   (words caseless)
  Number ::= Digits '.'? Digits? | '.' Digits
  with an optional exponent  ('e'|'E') Sign? Digits  after the Number.

`rustParseF64L` decides whether parsing succeeds; `rustParseFiniteF64L`
additionally rejects the infinity / NaN spellings (i.e. demands a finite
literal), which is the reading "parses as a finite number" used by the
specification. -/

def isAsciiDigit (c : Char) : Bool := c.isDigit

def allDigits (l : List Char) : Bool := l.all isAsciiDigit

def someDigits (l : List Char) : Bool := !l.isEmpty && allDigits l

/-- The mantissa part (before any exponent): `Digits '.'? Digits?` or
`'.' Digits`. -/
def mantissaOk (l : List Char) : Bool :=
  match l.splitOn '.' with
  | [a] => someDigits a
  | [a, b] => (someDigits a && allDigits b) || (a.isEmpty && someDigits b)
  | _ => false

/-- Exponent tail after the `e`/`E`: optional sign then nonempty digits. -/
def exponentOk (l : List Char) : Bool :=
  match l with
  | c :: rest => if c = '+' || c = '-' then someDigits rest else someDigits l
  | [] => false

/-- A finite float literal without the leading sign. -/
def finiteBodyOk (l : List Char) : Bool :=
  let mant := l.takeWhile (fun c => !(c = 'e' || c = 'E'))
  let rest := l.dropWhile (fun c => !(c = 'e' || c = 'E'))
  match rest with
  | [] => mantissaOk mant
  | _ :: expPart => mantissaOk mant && exponentOk expPart

/-- The special spellings accepted by `f64::from_str` (case-insensitive). -/
def specialBodyOk (l : List Char) : Bool :=
  let low := l.map Char.toLower
  low = "inf".data || low = "infinity".data || low = "nan".data

def stripSign (l : List Char) : List Char :=
  match l with
  | c :: rest => if c = '+' || c = '-' then rest else l
  | [] => []

/-- Rust `s.parse::<f64>().is_ok()` on a character list. -/
def rustParseF64L (l : List Char) : Bool :=
  let body := stripSign l
  !body.isEmpty && (specialBodyOk body || finiteBodyOk body)

/-- Parsing succeeds *and* yields a finite value (no inf/NaN spelling). -/
def rustParseFiniteF64L (l : List Char) : Bool :=
  let body := stripSign l
  !body.isEmpty && finiteBodyOk body

def rustParseF64 (s : String) : Bool := rustParseF64L s.data

def rustParseFiniteF64 (s : String) : Bool := rustParseFiniteF64L s.data

/-! ## The document model -/

/-- A parsed HTML node: a text leaf, or an element with tag name, class
tokens (the whitespace-split `class` attribute, in source order) and
children.  The document is the root element (`Html::root_element`). -/
inductive Node where
  | text : String → Node
  | elem : String → List String → List Node → Node

/-- The node at a child-index path, if any. -/
def nodeAt? : Node → List Nat → Option Node
  | n, [] => some n
  | .text _, _ :: _ => none
  | .elem _ _ cs, i :: p =>
    match cs.get? i with
    | some c => nodeAt? c p
    | none => none

mutual
/-- All paths of the subtree rooted at a node, in pre-order (the node itself
first) — the order of `ego_tree`'s `descendants()`. -/
def preorderPaths : Node → List (List Nat)
  | .text _ => [[]]
  | .elem _ _ cs => [] :: forestPaths cs 0

def forestPaths : List Node → Nat → List (List Nat)
  | [], _ => []
  | c :: cs, i => (preorderPaths c).map (fun q => i :: q) ++ forestPaths cs (i + 1)
end

mutual
/-- Model of `ElementRef::text().collect::<String>()`: the concatenation of all
descendant text, in document order. -/
def textChars : Node → List Char
  | .text s => s.data
  | .elem _ _ cs => forestText cs

def forestText : List Node → List Char
  | [] => []
  | c :: cs => textChars c ++ forestText cs
end

def Node.isElemNode : Node → Bool
  | .elem _ _ _ => true
  | .text _ => false

def isElemAt (doc : Node) (p : List Nat) : Bool :=
  match nodeAt? doc p with
  | some n => n.isElemNode
  | none => false

def tagAt (doc : Node) (p : List Nat) : String :=
  match nodeAt? doc p with
  | some (.elem t _ _) => t
  | _ => ""

def classesAt (doc : Node) (p : List Nat) : List String :=
  match nodeAt? doc p with
  | some (.elem _ cls _) => cls
  | _ => []

/-- Raw content of the text node at a path (none for elements). -/
def textNodeAt? (doc : Node) (p : List Nat) : Option String :=
  match nodeAt? doc p with
  | some (.text s) => some s
  | _ => none

/-- Full descendant text of the node at a path, as a string. -/
def textAt (doc : Node) (p : List Nat) : String :=
  match nodeAt? doc p with
  | some n => ⟨textChars n⟩
  | none => ""

/-- Paths of all element nodes of the document in document order (what
`Html::select` iterates, the root element included). -/
def elemPaths (doc : Node) : List (List Nat) :=
  (preorderPaths doc).filter (isElemAt doc)

/-- In scraper, `ElementRef::select(sel)` iterates the *strict* descendants of the
element, in document order (the implementation skips the element itself).
This is that iteration for the universal selector `*`, as paths. -/
def selectStar (doc : Node) (area : List Nat) : List (List Nat) :=
  match nodeAt? doc area with
  | some n => (((preorderPaths n).drop 1).map (fun q => area ++ q)).filter (isElemAt doc)
  | none => []

/-- Model of `ElementRef::select` for a plain tag-name selector such as `span`. -/
def selectTag (doc : Node) (area : List Nat) (tag : String) : List (List Nat) :=
  (selectStar doc area).filter (fun p => tagAt doc p == tag)

/-- The ancestor chain of a path, nearest ancestor first, ending with `[]`
(the document root): the proper prefixes of the path, longest first. -/
def ancestorChain (p : List Nat) : List (List Nat) :=
  ((List.range p.length).reverse).map (fun k => p.take k)

/-! ## SelectorBuilder (`build_selector`) and the re-query mechanism -/

/-- Characters of the descriptor string produced by `build_selector`:
`tag` when the element has no classes, else `tag.c1.c2...`
(`format!("{}.{}", tag_name, classes.join("."))`). -/
def selChars (tag : String) (classes : List String) : List Char :=
  if classes.isEmpty then tag.data
  else List.intercalate ['.'] (tag.data :: classes.map String.data)

/-- The function `build_selector` on an element node (never called on text nodes; the
text case is unreachable in the code and mapped to the empty string). -/
def build_selector : Node → String
  | .elem tag classes _ => ⟨selChars tag classes⟩
  | .text _ => ""

/-- The descriptor `build_selector` of the element at a path. -/
def selAt (doc : Node) (p : List Nat) : String :=
  match nodeAt? doc p with
  | some n => build_selector n
  | none => ""

/-- A structural selector: tag name and required class tokens. -/
structure Sel where
  tag : String
  classes : List String
deriving DecidableEq

/-- A valid CSS identifier for our purposes: nonempty and not starting with
a decimal digit.  (Models the fragment of the `cssparser` ident grammar that
distinguishes accepted from rejected descriptors built by
`build_selector`.) -/
def validIdentL (l : List Char) : Bool :=
  match l with
  | [] => false
  | c :: _ => !c.isDigit

/-- Model of `Selector::parse` on the compound `tag.class1.class2...`
strings that `build_selector` emits: split on `'.'`; the first token is the
tag, the rest are class tokens; parsing fails when any token is empty or
starts with a digit. -/
def selParse (s : String) : Option Sel :=
  match s.data.splitOn '.' with
  | [] => none
  | t :: cls =>
    if validIdentL t && cls.all validIdentL then
      some ⟨⟨t⟩, cls.map (fun c => ⟨c⟩)⟩
    else none

/-- CSS matching of a compound selector `tag.c1.c2` against an element:
the tag names agree and every selector class occurs among the element's
class tokens. -/
def selMatches (sel : Sel) (doc : Node) (p : List Nat) : Bool :=
  tagAt doc p == sel.tag && sel.classes.all (fun c => (classesAt doc p).contains c)

/-- Model of `document.select(&selector).next()`: the first element of the document,
in document order, matched by a parsed selector string. -/
def queryFirst (doc : Node) (s : String) : Option (List Nat) :=
  match selParse s with
  | some sel => (elemPaths doc).find? (selMatches sel doc)
  | none => none

/-- The helper `scrape_field` (smp/scraper_logic.rs): follow the stored selector string
if present; parse it; take the first match; return its trimmed text; any
failure along the way yields the empty string. -/
def scrape_field (doc : Node) (selOpt : Option String) : String :=
  match selOpt with
  | some s =>
    match selParse s with
    | some sel =>
      match (elemPaths doc).find? (selMatches sel doc) with
      | some p => ⟨trimChars (textChars ((nodeAt? doc p).getD (.text "")))⟩
      | none => ""
    | none => ""
  | none => ""

/-! ## AnchorLocator (`find_search_area_around_anchor`)

Both copies of the locator (smp/scraper_logic.rs with `MAX_LEVELS = 8`,
src/main.rs with a `max_levels` parameter) scan all nodes in document order,
stop at the first text node whose trimmed content equals the anchor, then
walk the ancestor chain for at most `max_levels` steps recording the last
element seen.  In a parsed document every ancestor of a text node is an
element, so the two variants (one skips non-element ancestors, one stops at
them) coincide; the model keeps the recording walk verbatim. -/

/-- Does the node at `p` match the anchor literal
(`text_node.trim() == anchor_text`)? -/
def anchorHit (doc : Node) (anchor : String) (p : List Nat) : Bool :=
  match textNodeAt? doc p with
  | some s => (⟨trimChars s.data⟩ : String) == anchor
  | none => false

/-- The `for _ in 0..max_levels` recording walk over the ancestor chain:
each step that yields an ancestor overwrites the accumulator. -/
def walkArea : List (List Nat) → Nat → Option (List Nat) → Option (List Nat)
  | _, 0, acc => acc
  | [], _ + 1, acc => acc
  | a :: rest, fuel + 1, _ => walkArea rest fuel (some a)

/-- The locator `find_search_area_around_anchor`: the search window (an ancestor element
path) derived from the first matching anchor text node. -/
def find_search_area (doc : Node) (anchor : String) (maxLevels : Nat) :
    Option (List Nat) :=
  match (preorderPaths doc).find? (anchorHit doc anchor) with
  | some p => walkArea (ancestorChain p) maxLevels none
  | none => none

/-! ## CandidateScanner predicates -/

/-- The `"code"` arm of the pattern match in
`find_text_pattern_selector_near_anchor`:
`trimmed_text.len() == 4 && trimmed_text.chars().all(char::is_numeric)`
(`len` counts UTF-8 bytes). -/
def pattern_is_match (patternType : String) (trimmed : String) : Bool :=
  if patternType == "code" then
    rustStrLen trimmed == 4 && trimmed.data.all rustIsNumeric
  else false

/-- The finder `find_text_pattern_selector_near_anchor` (smp/scraper_logic.rs): scan the
text nodes of the window in document order; on the first pattern match,
return the descriptor of its parent element.  (In a parsed document a text
node's parent is always an element, so the `ElementRef::wrap` failure branch
is unreachable.) -/
def find_text_pattern_selector (doc : Node) (anchor patternType : String)
    (maxLevels : Nat) : Option String :=
  match find_search_area doc anchor maxLevels with
  | some area =>
    match nodeAt? doc area with
    | some n =>
      match ((preorderPaths n).map (fun q => area ++ q)).find?
          (fun q => match textNodeAt? doc q with
            | some s => pattern_is_match patternType ⟨trimChars s.data⟩
            | none => false) with
      | some q => some (selAt doc q.dropLast)
      | none => none
    | none => none
  | none => none

/-- The SignedDelta text test, shared verbatim by
`find_ratio_selector_near_zenjitsuhi` (src/main.rs),
`find_stock_change_selector` and `find_fx_change_selector`
(smp/scraper_logic.rs): trimmed text starts with `+` or `-`, contains no
`%`, has byte length `> 1`, and the remainder after the sign with commas
removed parses as an `f64`. -/
def signedDeltaHit (t : String) : Bool :=
  let trimmed := trimChars t.data
  match trimmed with
  | c :: rest =>
    (c = '+' || c = '-') && !trimmed.contains '%' &&
    decide (rustStrLenL trimmed > 1) && rustParseF64L (dropCommas rest)
  | [] => false

/-- The Magnitude candidate test of `find_price_selector_near_anchor`
(src/main.rs): with `trimmed = text.trim().replace(",", "")`, requires
`!trimmed.is_empty() && trimmed.parse::<f64>().is_ok() && trimmed.len() > 2
&& trimmed != anchor_text`. -/
def magnitudeHit (anchor : String) (t : String) : Bool :=
  let trimmed := dropCommas (trimChars t.data)
  !trimmed.isEmpty && rustParseF64L trimmed &&
  decide (rustStrLenL trimmed > 2) && !((⟨trimmed⟩ : String) == anchor)

/-- The SignedPercent candidate test of `find_percent_selector_near_zenjitsuhi`
(src/main.rs): trimmed text contains `%`, `(` and `)`, has a numeric
character, and does not contain the literal `前日比`. -/
def percentHit (t : String) : Bool :=
  let trimmed := trimChars t.data
  trimmed.contains '%' && trimmed.contains '(' && trimmed.contains ')' &&
  trimmed.any rustIsNumeric && !listContainsStr trimmed "前日比".data

/-! ## FieldResolver: the ranked price finder (src/main.rs) -/

/-- Number of style-class tokens (`element.value().classes().count()`), the
prominence score. -/
def classCountAt (doc : Node) (p : List Nat) : Nat :=
  (classesAt doc p).length

/-- The Magnitude candidates of a window with their prominence scores, in
document order (`candidate_elements` of `find_price_selector_near_anchor`). -/
def magCandidates (doc : Node) (area : List Nat) (anchor : String) :
    List (List Nat × Nat) :=
  (selectStar doc area).filterMap (fun p =>
    if magnitudeHit anchor (textAt doc p) then some (p, classCountAt doc p)
    else none)

/-- Stable insertion of a scored candidate into a list sorted by score
descending: the new element goes before the first strictly smaller score,
after equal ones. -/
def insertDesc (x : List Nat × Nat) : List (List Nat × Nat) → List (List Nat × Nat)
  | [] => [x]
  | y :: ys => if y.2 ≤ x.2 then x :: y :: ys else y :: insertDesc x ys

/-- Stable sort by prominence, descending — the result of
`candidate_elements.sort_by(|a, b| b.1.cmp(&a.1))` (Rust's `sort_by` is
stable, and any stable sort under this comparator produces this list). -/
def sortDesc : List (List Nat × Nat) → List (List Nat × Nat)
  | [] => []
  | x :: xs => insertDesc x (sortDesc xs)

/-- The finder `find_price_selector_near_anchor` (src/main.rs): collect all Magnitude
candidates of the window, sort by prominence descending (stable), return
the descriptor of the first. -/
def find_price_selector (doc : Node) (anchor : String) (maxLevels : Nat) :
    Option String :=
  match find_search_area doc anchor maxLevels with
  | some area =>
    match sortDesc (magCandidates doc area anchor) with
    | [] => none
    | (p, _) :: _ => some (selAt doc p)
  | none => none

/-! ## FieldResolver: delta and percent finders (src/main.rs) -/

/-- The scanning loop of `find_ratio_selector_near_zenjitsuhi`: first
element matching the SignedDelta text test whose descriptor string contains
a `.`; a matching element with a bare-tag descriptor is skipped and the
scan continues. -/
def ratioLoop (doc : Node) : List (List Nat) → Option String
  | [] => none
  | p :: rest =>
    if signedDeltaHit (textAt doc p) then
      let s := selAt doc p
      if s.data.contains '.' then some s else ratioLoop doc rest
    else ratioLoop doc rest

/-- The finder `find_ratio_selector_near_zenjitsuhi` (src/main.rs). -/
def find_ratio_selector (doc : Node) (anchor : String) (maxLevels : Nat) :
    Option String :=
  match find_search_area doc anchor maxLevels with
  | some area => ratioLoop doc (selectStar doc area)
  | none => none

/-- The finder `find_percent_selector_near_zenjitsuhi` (src/main.rs): collect all
SignedPercent candidates of the window in document order, take the *last*,
and return its descriptor only when that descriptor string contains a `.`. -/
def find_percent_selector (doc : Node) (anchor : String) (maxLevels : Nat) :
    Option String :=
  match find_search_area doc anchor maxLevels with
  | some area =>
    match ((selectStar doc area).filter (fun p => percentHit (textAt doc p))).getLast? with
    | some p =>
      let s := selAt doc p
      if s.data.contains '.' then some s else none
    | none => none
  | none => none

/-! ## Stock / FX / index specific finders (smp/scraper_logic.rs) -/

/-- Trimmed full text of the node at a path. -/
def trimTextAt (doc : Node) (p : List Nat) : String :=
  ⟨trimChars (textAt doc p).data⟩

def startsWithChar (l : List Char) (c : Char) : Bool :=
  l.head? == some c

/-- The span test of `find_stock_price_selector`: with
`cleaned = trimmed.replace(",", "")`, requires nonempty, `f64`-parsable,
not starting with `+`/`-`, no `%`, and `cleaned != code`. -/
def stockPriceSpanHit (code : String) (t : String) : Bool :=
  let trimmed := trimChars t.data
  let cleaned := dropCommas trimmed
  !cleaned.isEmpty && rustParseF64L cleaned &&
  !startsWithChar trimmed '+' && !startsWithChar trimmed '-' &&
  !trimmed.contains '%' && !((⟨cleaned⟩ : String) == code)

/-- The previous-sibling paths of a path, nearest sibling first (the order
of `ego_tree`'s `prev_siblings()`); the root has none. -/
def prevSibPaths (p : List Nat) : List (List Nat) :=
  match p.getLast? with
  | some i => ((List.range i).reverse).map (fun j => p.dropLast ++ [j])
  | none => []

/-- One iteration of the sibling scan in `find_stock_price_selector`:
for each previous sibling that is an element, scan its descendant `span`s in
document order for the price test, returning the first hit's descriptor. -/
def priceSibScan (doc : Node) (code : String) (p : List Nat) : Option String :=
  ((prevSibPaths p).filter (isElemAt doc)).findSome? (fun sib =>
    ((selectTag doc sib "span").find?
        (fun sp => stockPriceSpanHit code (textAt doc sp))).map (selAt doc))

/-- The `loop { … prev_siblings … parent }` of `find_stock_price_selector`,
walking from the current element up to the document root (argument: the
*reversed* current path, so the recursion is structural).  At the root the
sibling scan is empty and the loop breaks. -/
def priceWalk (doc : Node) (code : String) : List Nat → Option String
  | [] => none
  | i :: rest =>
    match priceSibScan doc code ((i :: rest).reverse) with
    | some s => some s
    | none => priceWalk doc code rest

/-- The finder `find_stock_price_selector` (smp/scraper_logic.rs): locate the window of
the anchor, find the first element whose trimmed text is `前日比`, then walk
previous siblings and ancestors looking for the first qualifying `span`. -/
def find_stock_price_selector (doc : Node) (anchor code : String) : Option String :=
  match find_search_area doc anchor 8 with
  | some area =>
    match (selectStar doc area).find?
        (fun p => trimTextAt doc p == "前日比") with
    | some z => priceWalk doc code z.reverse
    | none => none
  | none => none

/-- The finder `find_stock_change_selector` (smp/scraper_logic.rs): first element of
the window passing the SignedDelta text test (no class requirement). -/
def find_stock_change_selector (doc : Node) (anchor : String) : Option String :=
  match find_search_area doc anchor 8 with
  | some area =>
    ((selectStar doc area).find? (fun p => signedDeltaHit (textAt doc p))).map (selAt doc)
  | none => none

/-- The span test of `find_stock_change_percent_selector`: trimmed text is
parenthesis-wrapped, contains `%` and has a numeric character. -/
def stockPercentHit (t : String) : Bool :=
  let trimmed := trimChars t.data
  startsWithChar trimmed '(' && (trimmed.getLast? == some ')') &&
  trimmed.contains '%' && trimmed.any rustIsNumeric

/-- The finder `find_stock_change_percent_selector` (smp/scraper_logic.rs): the first
qualifying `span` of the window. -/
def find_stock_change_percent_selector (doc : Node) (anchor : String) :
    Option String :=
  match find_search_area doc anchor 8 with
  | some area =>
    ((selectTag doc area "span").find? (fun p => stockPercentHit (textAt doc p))).map (selAt doc)
  | none => none

/-- Model of `element.value().attr("class").contains(needle)`: substring search in
the raw class attribute, modelled as the class tokens joined by single
spaces; an element without classes has no `class` attribute. -/
def classAttrContains (doc : Node) (p : List Nat) (needle : String) : Bool :=
  match classesAt doc p with
  | [] => false
  | cls => listContainsStr (List.intercalate [' '] (cls.map String.data)) needle.data

/-- The finder `find_stock_update_time_selector` (smp/scraper_logic.rs): inside the
window of `リアルタイム株価`, the first element whose class attribute
contains `PriceBoard__mainFooter`, then the first `time` element inside it. -/
def find_stock_update_time_selector (doc : Node) : Option String :=
  match find_search_area doc "リアルタイム株価" 8 with
  | some area =>
    match (selectStar doc area).find?
        (fun p => classAttrContains doc p "PriceBoard__mainFooter") with
    | some footer =>
      match (selectTag doc footer "time").head? with
      | some t => some (selAt doc t)
      | none => none
    | none => none
  | none => none

/-- First element of the document carrying a given class token (a CSS class
selector `.token`). -/
def firstWithClassToken (doc : Node) (token : String) : Option (List Nat) :=
  (elemPaths doc).find? (fun p => (classesAt doc p).contains token)

/-- The finder `find_dji_update_time_selector` (smp/scraper_logic.rs). -/
def find_dji_update_time_selector (doc : Node) : Option String :=
  match firstWithClassToken doc "_CommonPriceBoard__mainFooter_1g7gt_48" with
  | some footer =>
    match (selectTag doc footer "time").head? with
    | some t => some (selAt doc t)
    | none => none
  | none => none

/-- The finder `find_nikkei_update_time_selector` (smp/scraper_logic.rs). -/
def find_nikkei_update_time_selector (doc : Node) : Option String :=
  match firstWithClassToken doc "PriceBoard__mainFooter__16pO" with
  | some footer =>
    match (selectTag doc footer "time").head? with
    | some t => some (selAt doc t)
    | none => none
  | none => none

/-- The span test of `find_fx_price_selector`: comma-stripped trimmed text
is nonempty and `f64`-parsable. -/
def fxPriceHit (t : String) : Bool :=
  let cleaned := dropCommas (trimChars t.data)
  !cleaned.isEmpty && rustParseF64L cleaned

/-- The finder `find_fx_price_selector` (smp/scraper_logic.rs). -/
def find_fx_price_selector (doc : Node) : Option String :=
  match find_search_area doc "Bid" 8 with
  | some area =>
    ((selectTag doc area "span").find? (fun p => fxPriceHit (textAt doc p))).map (selAt doc)
  | none => none

/-- The finder `find_fx_change_selector` (smp/scraper_logic.rs). -/
def find_fx_change_selector (doc : Node) : Option String :=
  match find_search_area doc "Change" 8 with
  | some area =>
    ((selectTag doc area "span").find? (fun p => signedDeltaHit (textAt doc p))).map (selAt doc)
  | none => none

/-- The span test of `find_fx_update_time_selector`: contains `:`, `(`, `)`
and has byte length `< 20`. -/
def fxTimeHit (t : String) : Bool :=
  let trimmed := trimChars t.data
  trimmed.contains ':' && trimmed.contains '(' && trimmed.contains ')' &&
  decide (rustStrLenL trimmed < 20)

/-- The finder `find_fx_update_time_selector` (smp/scraper_logic.rs). -/
def find_fx_update_time_selector (doc : Node) : Option String :=
  match find_search_area doc "Bid" 8 with
  | some area =>
    ((selectTag doc area "span").find? (fun p => fxTimeHit (textAt doc p))).map (selAt doc)
  | none => none

/-! ## Label resolution (`find_name_dynamically`) -/

/-- The strong-label test: contains `(株)`, equals a known index name, or
contains `/`. -/
def strongName (t : String) : Bool :=
  strContainsStr t "(株)" || t == "NYダウ" || t == "日経平均株価" ||
  strContainsStr t "/"

/-- The validity test `!text.is_empty() && !text.chars().all(char::is_numeric)`. -/
def validNameText (t : String) : Bool :=
  !(t == "") && !t.data.all rustIsNumeric

/-- The `h2` scan of `find_name_dynamically`: returns (best, fallback);
the loop breaks at the first strong candidate, and the fallback records the
first valid candidate seen. -/
def nameLoop (doc : Node) :
    List (List Nat) → Option (List Nat) → Option (List Nat) × Option (List Nat)
  | [], fb => (none, fb)
  | p :: rest, fb =>
    let t := trimTextAt doc p
    if validNameText t then
      if strongName t then (some p, fb)
      else nameLoop doc rest (if fb.isNone then some p else fb)
    else nameLoop doc rest fb

/-- The resolver `find_name_dynamically` (smp/scraper_logic.rs): the found selector and
label text (empty text when nothing qualifies). -/
def find_name (doc : Node) : Option String × String :=
  let h2s := (elemPaths doc).filter (fun p => tagAt doc p == "h2")
  match nameLoop doc h2s none with
  | (some b, _) => (some (selAt doc b), trimTextAt doc b)
  | (none, some fb) => (some (selAt doc fb), trimTextAt doc fb)
  | (none, none) => (none, "")

/-! ## PageTypeClassifier and ExtractionSession (smp/main.rs) -/

inductive CodeType where
  | stock
  | fx
  | dji
  | nikkei
deriving DecidableEq

/-- The classifier `get_code_type` (smp/main.rs). -/
def get_code_type (code : String) : CodeType :=
  let upper := rustToUppercase code
  if upper == "%5EDJI" || upper == "^DJI" || upper == "DJI" then .dji
  else if upper == "998407.O" || upper == ".N225" || upper == "%5EN225" then .nikkei
  else if strEndsWith code "=FX" then .fx
  else .stock

/-- The extraction record (field names follow their use in smp/main.rs and
the JSON output: `code, name, price, change, changePercent, updateTime`). -/
structure StockData where
  code : String
  name : String
  price : String
  change : String
  change_percent : String
  update_time : String
deriving DecidableEq

/-- A field-resolution step, used to record which resolutions an extraction
attempts. -/
inductive FieldTag where
  | label
  | code
  | price
  | change
  | changePercent
  | updateTime
deriving DecidableEq

/-- The per-page-type selector resolution block of `scrape_dynamically`
(smp/main.rs): the price / change / change-percent / update-time selectors
and the list of field resolutions performed.  For FX pages the
change-percent selector is set to `None` without attempting resolution. -/
def selectorsFor (doc : Node) (codeType : CodeType) (anchorName code : String) :
    Option String × Option String × Option String × Option String × List FieldTag :=
  match codeType with
  | .fx =>
    (find_fx_price_selector doc, find_fx_change_selector doc, none,
     find_fx_update_time_selector doc,
     [FieldTag.price, FieldTag.change, FieldTag.updateTime])
  | .dji =>
    (find_stock_price_selector doc anchorName code,
     find_stock_change_selector doc anchorName,
     find_stock_change_percent_selector doc anchorName,
     find_dji_update_time_selector doc,
     [FieldTag.price, FieldTag.change, FieldTag.changePercent, FieldTag.updateTime])
  | .nikkei =>
    (find_stock_price_selector doc anchorName code,
     find_stock_change_selector doc anchorName,
     find_stock_change_percent_selector doc anchorName,
     find_nikkei_update_time_selector doc,
     [FieldTag.price, FieldTag.change, FieldTag.changePercent, FieldTag.updateTime])
  | .stock =>
    (find_stock_price_selector doc anchorName code,
     find_stock_change_selector doc "前日比",
     find_stock_change_percent_selector doc "前日比",
     find_stock_update_time_selector doc,
     [FieldTag.price, FieldTag.change, FieldTag.changePercent, FieldTag.updateTime])

/-- The session `scrape_dynamically` (smp/main.rs) on an already-fetched, parsed
document, paired with the list of field resolutions it attempts.  Label
resolution failing is the only fatal case; the code field falls back to the
raw identifier when scraped empty. -/
def scrape_dynamically (code : String) (doc : Node) :
    Except String StockData × List FieldTag :=
  let codeType := get_code_type code
  let nameText := (find_name doc).2
  if nameText == "" then
    (Except.error "Could not dynamically find a valid name.", [FieldTag.label])
  else
    let anchorName := nameText
    let codeSel := find_text_pattern_selector doc anchorName "code" 8
    let sels := selectorsFor doc codeType anchorName code
    let scrapedCode := scrape_field doc codeSel
    let data : StockData :=
      { code := if scrapedCode == "" then code else scrapedCode
        name := nameText
        price := scrape_field doc sels.1
        change := scrape_field doc sels.2.1
        change_percent := scrape_field doc sels.2.2.1
        update_time := scrape_field doc sels.2.2.2.1 }
    (Except.ok data, FieldTag.label :: FieldTag.code :: sels.2.2.2.2)

deriving instance DecidableEq for Except

/-! ## Shared lemmas -/

theorem getLast?_cons_isSome {α : Type} (y : α) (ys : List α) :
    ∃ z, (y :: ys).getLast? = some z := by
  induction ys generalizing y with
  | nil => exact ⟨y, rfl⟩
  | cons z zs ih =>
    rw [List.getLast?_cons_cons]
    exact ih z

theorem cons_getLast?_or {α : Type} (a : α) (t : List α) (acc : Option α) :
    ((a :: t).getLast?).or acc = (t.getLast?).or (some a) := by
  cases t with
  | nil => simp [List.getLast?]
  | cons y ys =>
    obtain ⟨z, hz⟩ := getLast?_cons_isSome y ys
    rw [List.getLast?_cons_cons, hz]
    simp [Option.or]

theorem walkArea_eq (l : List (List Nat)) (f : Nat) (acc : Option (List Nat)) :
    walkArea l f acc = ((l.take f).getLast?).or acc := by
  induction l generalizing f acc with
  | nil => cases f <;> simp [walkArea]
  | cons a rest ih =>
    cases f with
    | zero => simp [walkArea]
    | succ k =>
      rw [walkArea, ih, List.take_succ_cons, cons_getLast?_or]

/-! ## C2 — anchor location -/

/-- Spec-side formulation of §4.1: the first text node in document order
whose trimmed content equals the anchor yields the window; the window root
is the outermost ancestor reached by walking up at most `d` steps; no match
yields no window. -/
def anchorLocateSpec (doc : Node) (anchor : String) (d : Nat) :
    Option (List Nat) :=
  match (preorderPaths doc).find? (anchorHit doc anchor) with
  | some p => ((ancestorChain p).take d).getLast?
  | none => none

/-- C2: for every document, anchor literal and depth bound, anchor location
selects the first leaf text node in document order whose trimmed content
equals the anchor literal, and returns the outermost element ancestor
reached by walking up at most the depth bound steps from that node; with no
matching text node it returns absent. -/
theorem anchor_location_first_match_outermost
    (doc : Node) (anchor : String) (d : Nat) :
    find_search_area doc anchor d = anchorLocateSpec doc anchor d := by
  unfold find_search_area anchorLocateSpec
  cases h : (preorderPaths doc).find? (anchorHit doc anchor) with
  | none => rfl
  | some p =>
    dsimp only
    rw [walkArea_eq]
    cases ((ancestorChain p).take d).getLast? <;> rfl

/-! ## C1 — Magnitude (price) resolution -/

/-- Spec-side selection rule for Magnitude: the candidate with the greatest
prominence score, ties resolved in favour of the earlier candidate. -/
def argmaxEarliest : List (List Nat × Nat) → Option (List Nat × Nat)
  | [] => none
  | x :: xs =>
    some (match argmaxEarliest xs with
      | none => x
      | some m => if m.2 > x.2 then m else x)

theorem argmaxEarliest_eq_none_iff (l : List (List Nat × Nat)) :
    argmaxEarliest l = none ↔ l = [] := by
  cases l <;> simp [argmaxEarliest]

/-- The selection `argmaxEarliest` really is the earliest candidate of maximal score: it
is a member, every score is bounded by its score, and every candidate
strictly before it has a strictly smaller score. -/
theorem argmaxEarliest_spec (l : List (List Nat × Nat)) (m : List Nat × Nat)
    (h : argmaxEarliest l = some m) :
    (∀ y ∈ l, y.2 ≤ m.2) ∧
    ∃ l₁ l₂, l = l₁ ++ m :: l₂ ∧ ∀ y ∈ l₁, y.2 < m.2 := by
  induction l generalizing m with
  | nil => simp [argmaxEarliest] at h
  | cons x xs ih =>
    rw [argmaxEarliest] at h
    cases hxs : argmaxEarliest xs with
    | none =>
      rw [hxs] at h
      have hnil : xs = [] := (argmaxEarliest_eq_none_iff xs).mp hxs
      subst hnil
      simp at h
      subst h
      exact ⟨by simp, [], [], by simp⟩
    | some m' =>
      rw [hxs] at h
      obtain ⟨hb, l₁, l₂, hsplit, hlt⟩ := ih m' hxs
      by_cases hc : m'.2 > x.2
      · simp only [hc, if_pos] at h
        simp only [Option.some_inj] at h
        subst h
        refine ⟨?_, x :: l₁, l₂, by simp [hsplit], ?_⟩
        · intro y hy
          rcases List.mem_cons.mp hy with hy | hy
          · subst hy; omega
          · exact hb y hy
        · intro y hy
          rcases List.mem_cons.mp hy with hy | hy
          · subst hy; omega
          · exact hlt y hy
      · simp only [hc, if_neg, not_false_iff] at h
        simp only [Option.some_inj] at h
        subst h
        refine ⟨?_, [], xs, by simp, by simp⟩
        intro y hy
        rcases List.mem_cons.mp hy with hy | hy
        · subst hy; omega
        · have := hb y hy; omega

theorem sortDesc_head (l : List (List Nat × Nat)) :
    (sortDesc l).head? = argmaxEarliest l := by
  induction l with
  | nil => rfl
  | cons x xs ih =>
    rw [sortDesc, argmaxEarliest]
    cases h : sortDesc xs with
    | nil =>
      rw [h] at ih
      simp only [List.head?] at ih
      rw [insertDesc, ← ih]
      rfl
    | cons y ys =>
      rw [h] at ih
      simp only [List.head?] at ih
      rw [insertDesc, ← ih]
      by_cases hc : y.2 ≤ x.2
      · have hng : ¬ y.2 > x.2 := by omega
        simp [hc, hng]
      · have hg : y.2 > x.2 := by omega
        simp [hc, hg]

/-- The Magnitude candidate test exactly as the claim states it: trimmed,
comma-stripped text parses as a *finite* number, the text does not start
with `+`/`-`, does not contain `%`, has length greater than 2 after
stripping, and is not equal to the excluded literal. -/
def claimMagnitudeHit (excluded : String) (t : String) : Bool :=
  let trimmed := trimChars t.data
  let stripped := dropCommas trimmed
  rustParseFiniteF64L stripped &&
  !startsWithChar trimmed '+' && !startsWithChar trimmed '-' &&
  !trimmed.contains '%' && decide (rustStrLenL stripped > 2) &&
  !((⟨stripped⟩ : String) == excluded)

/-- A window whose only numeric-looking descendant starts with `+`. -/
def exPriceDoc : Node :=
  .elem "div" [] [ .elem "p" [] [ .text "X", .elem "span" ["a"] [.text "+1234"] ] ]

/-- C1, counterexample: the code's price finder does not exclude sign-led
text.  In `exPriceDoc` no element satisfies the claim's Magnitude filter
(the only numeric text, `+1234`, starts with `+`), so by the claim
resolution would yield no descriptor — yet `find_price_selector` returns
the descriptor of the `+1234` element. -/
theorem magnitude_claim_counterexample :
    find_price_selector exPriceDoc "X" 4 = some "span.a" ∧
    ∀ p ∈ elemPaths exPriceDoc, claimMagnitudeHit "X" (textAt exPriceDoc p) = false := by
  decide

/-- C1 (amended): for every search window, the price finder returns the
descriptor of that candidate element — trimmed, comma-stripped text
nonempty, parsing under Rust's `f64` grammar, of byte length greater than 2
and different from the excluded literal (the anchor text) — which has the
greatest count of style-class tokens, ties broken in favour of the earlier
element in document order; absent if no element qualifies.  (No sign or
percent exclusion is applied by this finder.) -/
theorem magnitude_resolution_prominence_argmax
    (doc : Node) (anchor : String) (d : Nat) :
    find_price_selector doc anchor d =
      (find_search_area doc anchor d).bind (fun area =>
        (argmaxEarliest (magCandidates doc area anchor)).map
          (fun x => selAt doc x.1)) := by
  unfold find_price_selector
  cases h : find_search_area doc anchor d with
  | none => rfl
  | some area =>
    dsimp only [Option.bind]
    have hh := sortDesc_head (magCandidates doc area anchor)
    cases hs : sortDesc (magCandidates doc area anchor) with
    | nil =>
      rw [hs] at hh
      simp only [List.head?] at hh
      rw [← hh]
      rfl
    | cons y ys =>
      rw [hs] at hh
      simp only [List.head?] at hh
      rw [← hh]
      rfl

/-! ## C3 / C4 — SignedPercent and SignedDelta resolution -/

theorem find?_eq_head?_of_filter {α : Type} (f : α → Bool) (l : List α) :
    l.find? f = (l.filter f).head? := by
  induction l with
  | nil => rfl
  | cons x xs ih =>
    cases h : f x with
    | true =>
      rw [List.find?_cons_of_pos _ h, List.filter_cons_of_pos h]
      rfl
    | false =>
      rw [List.find?_cons_of_neg _ (by simp [h]), List.filter_cons_of_neg (by simp [h]), ih]

theorem filter_getLast?_eq_reverse_find? {α : Type} (f : α → Bool) (l : List α) :
    (l.filter f).getLast? = l.reverse.find? f := by
  rw [find?_eq_head?_of_filter, List.filter_reverse, List.head?_reverse]

/-- Under a dot-free tag name, the descriptor string contains a `.` exactly
when the element carries at least one class token. -/
theorem selAt_contains_dot (doc : Node) (p : List Nat)
    (hdot : (tagAt doc p).data.contains '.' = false) :
    (selAt doc p).data.contains '.' = !(classesAt doc p).isEmpty := by
  cases hn : nodeAt? doc p with
  | none => simp [selAt, classesAt, hn]
  | some n =>
    cases n with
    | text s => simp [selAt, classesAt, hn, build_selector]
    | elem t cls ch =>
      have hdot2 : (t.data.contains '.') = false := by
        simpa [tagAt, hn] using hdot
      cases cls with
      | nil =>
        simpa [selAt, classesAt, hn, build_selector, selChars] using hdot2
      | cons c cr =>
        have hmem : ('.' : Char) ∈ List.intercalate ['.']
            (t.data :: c.data :: cr.map String.data) := by
          simp [List.intercalate, List.intersperse_cons_cons]
        simp [selAt, classesAt, hn, build_selector, selChars, hmem]

/-- The scanning loop of the delta finder agrees with a single first-match
search for "text test passes and the element carries a class token",
provided tag names in the scanned list are dot-free. -/
theorem ratioLoop_eq_find? (doc : Node) (l : List (List Nat))
    (hdot : l.all (fun p => !(tagAt doc p).data.contains '.') = true) :
    ratioLoop doc l =
      (l.find? (fun p => signedDeltaHit (textAt doc p) &&
        !(classesAt doc p).isEmpty)).map (selAt doc) := by
  induction l with
  | nil => rfl
  | cons p rest ih =>
    rw [List.all_cons, Bool.and_eq_true] at hdot
    obtain ⟨hp, hrest⟩ := hdot
    have hdotp : (tagAt doc p).data.contains '.' = false := by
      revert hp
      cases (tagAt doc p).data.contains '.' <;> simp
    dsimp only [ratioLoop]
    rw [selAt_contains_dot doc p hdotp, List.find?_cons]
    cases hhit : signedDeltaHit (textAt doc p) with
    | false => simp [hhit, ih hrest]
    | true =>
      cases hcls : (classesAt doc p).isEmpty with
      | true => simp [hhit, hcls, ih hrest]
      | false => simp [hhit, hcls]

/-- The claim's SignedDelta candidate test: sign-led, percent-free, length
greater than 1, remainder after the sign (commas removed) parsing as a
*finite* number. -/
def claimSignedDeltaHit (t : String) : Bool :=
  let trimmed := trimChars t.data
  match trimmed with
  | c :: rest =>
    (c = '+' || c = '-') && !trimmed.contains '%' &&
    decide (rustStrLenL trimmed > 1) && rustParseFiniteF64L (dropCommas rest)
  | [] => false

/-- A window whose only sign-led descendant text is `+inf`. -/
def exDeltaDoc : Node :=
  .elem "div" [] [ .elem "p" [] [ .text "前日比", .elem "span" ["a"] [.text "+inf"] ] ]

/-- C4, counterexample: Rust's float parser accepts the spelling `inf`, so
the code returns the descriptor of the `+inf` element even though no element
of the window satisfies the claim's filter (which demands a finite
number). -/
theorem delta_claim_counterexample :
    find_ratio_selector exDeltaDoc "前日比" 4 = some "span.a" ∧
    ∀ p ∈ elemPaths exDeltaDoc, claimSignedDeltaHit (textAt exDeltaDoc p) = false := by
  decide

/-- C4 (amended): for every search window with dot-free tag names, the
delta finder returns the descriptor of the first element in document order
whose trimmed text starts with `+` or `-`, contains no `%`, has byte length
greater than 1 and whose remainder after the sign (commas removed) parses
under Rust's `f64` grammar (infinity/NaN spellings included), and whose
descriptor has at least one class token; candidates with a purely-tag
descriptor are skipped. -/
theorem delta_resolution_first_class_bearing
    (doc : Node) (anchor : String) (d : Nat) (area : List Nat)
    (harea : find_search_area doc anchor d = some area)
    (hdot : (selectStar doc area).all
      (fun p => !(tagAt doc p).data.contains '.') = true) :
    find_ratio_selector doc anchor d =
      ((selectStar doc area).find? (fun p => signedDeltaHit (textAt doc p) &&
        !(classesAt doc p).isEmpty)).map (selAt doc) := by
  unfold find_ratio_selector
  rw [harea]
  exact ratioLoop_eq_find? doc (selectStar doc area) hdot

/-- Witness document for the amended delta policy: the window holds
`+123` (class-bearing), and `+456 (2.3%)` which fails the percent test; the
first class-bearing match wins. -/
def exDeltaWitnessDoc : Node :=
  .elem "div" [] [ .elem "p" [] [ .text "前日比",
    .elem "span" [] [.text "-9"],
    .elem "span" ["a"] [.text "+123"],
    .elem "span" ["b"] [.text "+456 (2.3%)"] ] ]

theorem delta_resolution_first_class_bearing_witness :
    find_search_area exDeltaWitnessDoc "前日比" 4 = some [] ∧
    (selectStar exDeltaWitnessDoc []).all
      (fun p => !(tagAt exDeltaWitnessDoc p).data.contains '.') = true ∧
    find_ratio_selector exDeltaWitnessDoc "前日比" 4 =
      ((selectStar exDeltaWitnessDoc []).find?
        (fun p => signedDeltaHit (textAt exDeltaWitnessDoc p) &&
          !(classesAt exDeltaWitnessDoc p).isEmpty)).map (selAt exDeltaWitnessDoc) :=
  ⟨by decide, by decide,
    delta_resolution_first_class_bearing exDeltaWitnessDoc "前日比" 4 []
      (by decide) (by decide)⟩

/-- A window with two class-bearing SignedPercent candidates where only the
*first* carries the known secondary-styling marker. -/
def exPercentDoc : Node :=
  .elem "div" [] [ .elem "p" [] [ .text "前日比",
    .elem "span" ["StyledNumber__item--secondary__RTJc"] [.text "(+1.5%)"],
    .elem "span" ["x"] [.text "(-0.3%)"] ] ]

/-- C3, counterexample: the percent finder has no secondary-marker
preference.  In `exPercentDoc` the window's candidate list consists of a
marker-bearing candidate followed by a plain one, both class-bearing; the
claim says the marker-bearing one wins, but the code returns the *last*
candidate `span.x`. -/
theorem percent_claim_counterexample :
    find_search_area exPercentDoc "前日比" 4 = some [] ∧
    ((selectStar exPercentDoc []).filter
        (fun p => percentHit (textAt exPercentDoc p))).map (selAt exPercentDoc) =
      ["span.StyledNumber__item--secondary__RTJc", "span.x"] ∧
    strContainsStr "span.StyledNumber__item--secondary__RTJc" "secondary" = true ∧
    strContainsStr "span.x" "secondary" = false ∧
    find_percent_selector exPercentDoc "前日比" 4 = some "span.x" := by
  decide

/-- C3 (amended): for every search window with dot-free tag names, the
percent finder returns the descriptor of the *last* element in document
order whose trimmed text contains `%`, `(` and `)`, has a numeric character
and does not contain the label literal `前日比` — kept only when that
element carries at least one class token, otherwise nothing; no
secondary-marker preference exists. -/
theorem percent_resolution_last_match
    (doc : Node) (anchor : String) (d : Nat) (area : List Nat)
    (harea : find_search_area doc anchor d = some area)
    (hdot : (selectStar doc area).all
      (fun p => !(tagAt doc p).data.contains '.') = true) :
    find_percent_selector doc anchor d =
      ((selectStar doc area).reverse.find?
          (fun p => percentHit (textAt doc p))).bind
        (fun p => if (classesAt doc p).isEmpty then none
          else some (selAt doc p)) := by
  unfold find_percent_selector
  rw [harea]
  dsimp only
  rw [filter_getLast?_eq_reverse_find?]
  cases hf : (selectStar doc area).reverse.find? (fun p => percentHit (textAt doc p)) with
  | none => rfl
  | some p =>
    have hmem : p ∈ selectStar doc area := by
      have := List.mem_of_find?_eq_some hf
      exact List.mem_reverse.mp this
    have hdotp : (tagAt doc p).data.contains '.' = false := by
      have := (List.all_eq_true.mp hdot) p hmem
      revert this
      cases (tagAt doc p).data.contains '.' <;> simp
    dsimp only [Option.bind]
    rw [selAt_contains_dot doc p hdotp]
    cases hcls : (classesAt doc p).isEmpty with
    | true => simp [hcls]
    | false => simp [hcls]

theorem percent_resolution_last_match_witness :
    find_search_area exDeltaWitnessDoc "前日比" 4 = some [] ∧
    (selectStar exDeltaWitnessDoc []).all
      (fun p => !(tagAt exDeltaWitnessDoc p).data.contains '.') = true ∧
    find_percent_selector exDeltaWitnessDoc "前日比" 4 =
      ((selectStar exDeltaWitnessDoc []).reverse.find?
          (fun p => percentHit (textAt exDeltaWitnessDoc p))).bind
        (fun p => if (classesAt exDeltaWitnessDoc p).isEmpty then none
          else some (selAt exDeltaWitnessDoc p)) :=
  ⟨by decide, by decide,
    percent_resolution_last_match exDeltaWitnessDoc "前日比" 4 []
      (by decide) (by decide)⟩

/-! ## C9 — the Code pattern -/

theorem charUtf8Len_eq_one_of_ascii (c : Char) (h : c.toNat < 128) :
    charUtf8Len c = 1 := by
  unfold charUtf8Len
  rw [if_pos h]

theorem rustStrLenL_eq_length_of_ascii :
    ∀ l : List Char, (∀ c ∈ l, c.toNat < 128) → rustStrLenL l = l.length
  | [], _ => rfl
  | c :: cs, h => by
    have hc := h c (List.mem_cons_self c cs)
    have hcs : ∀ x ∈ cs, x.toNat < 128 := fun x hx => h x (List.mem_cons_of_mem c hx)
    have ih := rustStrLenL_eq_length_of_ascii cs hcs
    simp only [rustStrLenL, List.map_cons, List.sum_cons,
      charUtf8Len_eq_one_of_ascii c hc, List.length_cons] at ih ⊢
    omega

theorem rustIsNumeric_eq_isDigit_of_ascii (c : Char) (h : c.toNat < 128) :
    rustIsNumeric c = c.isDigit := by
  have h1 : ¬ (0x660 ≤ c.toNat) := by omega
  have h2 : ¬ (0x6f0 ≤ c.toNat) := by omega
  have h3 : ¬ (0x966 ≤ c.toNat) := by omega
  simp [rustIsNumeric, h1, h2, h3]

/-- C9, counterexample: the code's length check counts UTF-8 bytes and its
digit check accepts any Unicode-numeric character.  The two-character
Arabic-Indic string `٣٣` (four bytes, both characters numeric) is accepted
by the pattern although it has neither length 4 nor decimal-digit
characters. -/
theorem code_pattern_claim_counterexample :
    pattern_is_match "code" "٣٣" = true ∧
    ¬ ("٣٣".data.length = 4 ∧ ∀ c ∈ "٣٣".data, c.isDigit = true) := by
  decide

/-- C9 (amended): the Code pattern accepts a trimmed text exactly when its
UTF-8 byte length is 4 and every character is numeric in the Unicode sense;
restricted to ASCII text this is precisely: exactly four characters, all
decimal digits. -/
theorem code_pattern_ascii_iff (s : String)
    (h : ∀ c ∈ s.data, c.toNat < 128) :
    pattern_is_match "code" s = true ↔
      (s.data.length = 4 ∧ ∀ c ∈ s.data, c.isDigit = true) := by
  have hlen : rustStrLen s = s.data.length :=
    rustStrLenL_eq_length_of_ascii s.data h
  have hdig : ∀ c ∈ s.data, rustIsNumeric c = c.isDigit :=
    fun c hc => rustIsNumeric_eq_isDigit_of_ascii c (h c hc)
  simp only [pattern_is_match, beq_self_eq_true, if_true, Bool.and_eq_true,
    beq_iff_eq, hlen, List.all_eq_true]
  constructor
  · rintro ⟨h1, h2⟩
    exact ⟨h1, fun c hc => by rw [← hdig c hc]; exact h2 c hc⟩
  · rintro ⟨h1, h2⟩
    exact ⟨h1, fun c hc => by rw [hdig c hc]; exact h2 c hc⟩

theorem code_pattern_ascii_iff_witness :
    (∀ c ∈ "1234".data, c.toNat < 128) ∧
    (pattern_is_match "code" "1234" = true ↔
      ("1234".data.length = 4 ∧ ∀ c ∈ "1234".data, c.isDigit = true)) :=
  ⟨by decide, code_pattern_ascii_iff "1234" (by decide)⟩

/-! ## C7 — the page-type classifier -/

/-- C7, counterexample: `^N225` is a caret-prefixed token, yet the
classifier maps it to the equity case (`CodeType.stock`), not to the single
index case (`CodeType.dji`): the caret rule of the claim does not exist;
the classifier compares against fixed literals. -/
theorem classifier_claim_counterexample :
    "^N225".data.head? = some '^' ∧
    get_code_type "^N225" = CodeType.stock ∧
    CodeType.stock ≠ CodeType.dji := by
  decide

/-- C7 (amended): the classifier is a fixed-literal dispatch — SingleIndex
(`dji`) exactly for the three uppercased DJI spellings, CompositeIndex
(`nikkei`) exactly for the three uppercased Nikkei spellings, CurrencyPair
(`fx`) for the remaining identifiers ending in `=FX` (case-sensitive), and
Equity (`stock`) otherwise. -/
theorem classifier_literal_cases (s : String) :
    (get_code_type s = CodeType.dji ↔
      (rustToUppercase s = "%5EDJI" ∨ rustToUppercase s = "^DJI" ∨
        rustToUppercase s = "DJI")) ∧
    (get_code_type s = CodeType.nikkei ↔
      (¬ (rustToUppercase s = "%5EDJI" ∨ rustToUppercase s = "^DJI" ∨
          rustToUppercase s = "DJI") ∧
        (rustToUppercase s = "998407.O" ∨ rustToUppercase s = ".N225" ∨
          rustToUppercase s = "%5EN225"))) ∧
    (get_code_type s = CodeType.fx ↔
      (¬ (rustToUppercase s = "%5EDJI" ∨ rustToUppercase s = "^DJI" ∨
          rustToUppercase s = "DJI") ∧
        ¬ (rustToUppercase s = "998407.O" ∨ rustToUppercase s = ".N225" ∨
          rustToUppercase s = "%5EN225") ∧
        strEndsWith s "=FX" = true)) ∧
    (get_code_type s = CodeType.stock ↔
      (¬ (rustToUppercase s = "%5EDJI" ∨ rustToUppercase s = "^DJI" ∨
          rustToUppercase s = "DJI") ∧
        ¬ (rustToUppercase s = "998407.O" ∨ rustToUppercase s = ".N225" ∨
          rustToUppercase s = "%5EN225") ∧
        ¬ strEndsWith s "=FX" = true)) := by
  unfold get_code_type
  dsimp only
  have hf : ¬ (false = true) := by simp
  cases hb1 : (rustToUppercase s == "%5EDJI" || rustToUppercase s == "^DJI" ||
      rustToUppercase s == "DJI") with
  | true =>
    have hd : rustToUppercase s = "%5EDJI" ∨ rustToUppercase s = "^DJI" ∨
        rustToUppercase s = "DJI" := by
      simpa [beq_iff_eq, or_assoc] using hb1
    rw [if_pos rfl]
    exact ⟨iff_of_true rfl hd,
      iff_of_false (by simp) (fun hc => hc.1 hd),
      iff_of_false (by simp) (fun hc => hc.1 hd),
      iff_of_false (by simp) (fun hc => hc.1 hd)⟩
  | false =>
    have hnd : ¬ (rustToUppercase s = "%5EDJI" ∨ rustToUppercase s = "^DJI" ∨
        rustToUppercase s = "DJI") := by
      intro hcon
      rcases hcon with h | h | h <;> simp [h] at hb1
    rw [if_neg hf]
    cases hb2 : (rustToUppercase s == "998407.O" || rustToUppercase s == ".N225" ||
        rustToUppercase s == "%5EN225") with
    | true =>
      have hn : rustToUppercase s = "998407.O" ∨ rustToUppercase s = ".N225" ∨
          rustToUppercase s = "%5EN225" := by
        simpa [beq_iff_eq, or_assoc] using hb2
      rw [if_pos rfl]
      exact ⟨iff_of_false (by simp) hnd,
        iff_of_true rfl ⟨hnd, hn⟩,
        iff_of_false (by simp) (fun hc => hc.2.1 hn),
        iff_of_false (by simp) (fun hc => hc.2.1 hn)⟩
    | false =>
      have hnn : ¬ (rustToUppercase s = "998407.O" ∨ rustToUppercase s = ".N225" ∨
          rustToUppercase s = "%5EN225") := by
        intro hcon
        rcases hcon with h | h | h <;> simp [h] at hb2
      rw [if_neg hf]
      cases hb3 : strEndsWith s "=FX" with
      | true =>
        rw [if_pos rfl]
        exact ⟨iff_of_false (by simp) hnd,
          iff_of_false (by simp) (fun hc => hnn hc.2),
          iff_of_true rfl ⟨hnd, hnn, rfl⟩,
          iff_of_false (by simp) (fun hc => hc.2.2 rfl)⟩
      | false =>
        rw [if_neg hf]
        exact ⟨iff_of_false (by simp) hnd,
          iff_of_false (by simp) (fun hc => hnn hc.2),
          iff_of_false (by simp) (fun hc => by simp [hc.2.2] at hf),
          iff_of_true rfl ⟨hnd, hnn, by simp⟩⟩

/-! ## C8 — descriptor round trip -/

/-- Splitting on dots undoes `build_selector` on well-formed tag/class names. -/
theorem selParse_build (t : String) (cls : List String)
    (hwt : validIdentL t.data = true) (hdt : ('.' : Char) ∉ t.data)
    (hwc : ∀ cl ∈ cls, validIdentL cl.data = true ∧ ('.' : Char) ∉ cl.data) :
    selParse ⟨selChars t cls⟩ = some ⟨t, cls⟩ := by
  cases cls with
  | nil =>
    have hsplit : t.data.splitOn '.' = [t.data] := by
      unfold List.splitOn
      exact List.splitOnP_eq_single _ _
        (fun x hx hbeq => hdt (by rwa [eq_of_beq hbeq] at hx))
    have hdata : (⟨selChars t []⟩ : String).data = t.data := by
      simp [selChars]
    unfold selParse
    rw [hdata, hsplit]
    dsimp only
    rw [if_pos (by simp [hwt])]
    rfl
  | cons c cr =>
    have hsplit : (List.intercalate ['.'] (t.data :: (c :: cr).map String.data)).splitOn '.' =
        t.data :: (c :: cr).map String.data := by
      apply List.splitOn_intercalate
      · intro l hl
        rcases List.mem_cons.mp hl with h | h
        · subst h; exact hdt
        · obtain ⟨cl, hclmem, hcleq⟩ := List.mem_map.mp h
          subst hcleq
          exact (hwc cl hclmem).2
      · simp
    have hvalid : ((c :: cr).map String.data).all validIdentL = true := by
      rw [List.all_eq_true]
      intro l hl
      obtain ⟨cl, hclmem, hcleq⟩ := List.mem_map.mp hl
      subst hcleq
      exact (hwc cl hclmem).1
    have hdata : (⟨selChars t (c :: cr)⟩ : String).data =
        List.intercalate ['.'] (t.data :: (c :: cr).map String.data) := by
      simp [selChars]
    have hmaps : ((c :: cr).map String.data).map (fun l => (⟨l⟩ : String)) = c :: cr := by
      rw [List.map_map]
      exact List.map_id _
    have hcond : (validIdentL t.data &&
        ((c :: cr).map String.data).all validIdentL) = true := by
      rw [hwt, hvalid]
      rfl
    unfold selParse
    rw [hdata, hsplit]
    dsimp only
    rw [if_pos hcond, hmaps]

/-- An element always matches its own descriptor. -/
theorem selMatches_self (doc : Node) (p : List Nat)
    (t : String) (cls : List String) (ch : List Node)
    (hn : nodeAt? doc p = some (.elem t cls ch)) :
    selMatches ⟨t, cls⟩ doc p = true := by
  simp only [selMatches, tagAt, classesAt, hn, beq_self_eq_true, Bool.true_and,
    List.all_eq_true]
  intro c hc
  simp [hc]

/-- The document with two structurally identical `span.a` elements. -/
def exDupDoc : Node :=
  .elem "html" [] [ .elem "span" ["a"] [], .elem "span" ["a"] [] ]

/-- C8, counterexample: the descriptor built from the *second* `span.a`
element re-queries to the *first* one — the round trip does not return the
element the descriptor was built from when an earlier element shares its
tag and classes. -/
theorem roundtrip_claim_counterexample :
    [1] ∈ elemPaths exDupDoc ∧
    selAt exDupDoc [1] = "span.a" ∧
    queryFirst exDupDoc (selAt exDupDoc [1]) = some [0] ∧
    ([0] : List Nat) ≠ [1] := by
  decide

/-- C8 (amended): for an element with well-formed (CSS-identifier, dot-free)
tag and class names, the built descriptor parses back to exactly (tag,
classes), the element matches its own descriptor, and re-querying returns
the *first* element of the document, in document order, matching the
descriptor — which is the original element precisely when no earlier
element also matches; some matching element is always returned. -/
theorem selector_roundtrip_first_match
    (doc : Node) (p : List Nat) (t : String) (cls : List String) (ch : List Node)
    (hn : nodeAt? doc p = some (.elem t cls ch))
    (hp : p ∈ elemPaths doc)
    (hwt : validIdentL t.data = true) (hdt : ('.' : Char) ∉ t.data)
    (hwc : ∀ cl ∈ cls, validIdentL cl.data = true ∧ ('.' : Char) ∉ cl.data) :
    selMatches ⟨t, cls⟩ doc p = true ∧
    queryFirst doc (selAt doc p) =
      (elemPaths doc).find? (selMatches ⟨t, cls⟩ doc) ∧
    ∃ q, queryFirst doc (selAt doc p) = some q ∧
      selMatches ⟨t, cls⟩ doc q = true := by
  have hsel : selAt doc p = ⟨selChars t cls⟩ := by
    simp [selAt, hn, build_selector]
  have hparse := selParse_build t cls hwt hdt hwc
  have hself := selMatches_self doc p t cls ch hn
  have hquery : queryFirst doc (selAt doc p) =
      (elemPaths doc).find? (selMatches ⟨t, cls⟩ doc) := by
    rw [hsel]
    unfold queryFirst
    rw [hparse]
  refine ⟨hself, hquery, ?_⟩
  have hsome : ((elemPaths doc).find? (selMatches ⟨t, cls⟩ doc)).isSome :=
    List.find?_isSome.mpr ⟨p, hp, hself⟩
  obtain ⟨q, hq⟩ := Option.isSome_iff_exists.mp hsome
  exact ⟨q, by rw [hquery]; exact hq, List.find?_some hq⟩

theorem selector_roundtrip_first_match_witness :
    nodeAt? exDupDoc [1] = some (.elem "span" ["a"] []) ∧
    ([1] ∈ elemPaths exDupDoc) ∧
    (selMatches ⟨"span", ["a"]⟩ exDupDoc [1] = true ∧
     queryFirst exDupDoc (selAt exDupDoc [1]) =
       (elemPaths exDupDoc).find? (selMatches ⟨"span", ["a"]⟩ exDupDoc) ∧
     ∃ q, queryFirst exDupDoc (selAt exDupDoc [1]) = some q ∧
       selMatches ⟨"span", ["a"]⟩ exDupDoc q = true) :=
  ⟨rfl, by decide,
    selector_roundtrip_first_match exDupDoc [1] "span" ["a"] []
      rfl (by decide) (by decide) (by decide) (by decide)⟩

/-! ## C5 / C6 / C10 — extraction session error handling -/

/-- C5: when Label resolution yields no (non-empty) label text,
`scrape_dynamically` fails with the label-not-found error, and the only
field resolution attempted is the Label one. -/
theorem label_failure_aborts (doc : Node) (code : String)
    (h : (find_name doc).2 = "") :
    scrape_dynamically code doc =
      (Except.error "Could not dynamically find a valid name.",
        [FieldTag.label]) := by
  unfold scrape_dynamically
  rw [h]
  rfl

/-- A document with no heading at all: Label resolution fails. -/
def exNoLabelDoc : Node := .elem "div" [] []

theorem label_failure_aborts_witness :
    (find_name exNoLabelDoc).2 = "" ∧
    scrape_dynamically "6758" exNoLabelDoc =
      (Except.error "Could not dynamically find a valid name.",
        [FieldTag.label]) :=
  ⟨by decide, label_failure_aborts exNoLabelDoc "6758" (by decide)⟩

/-- A document holding only the label heading; every non-Label field
resolution comes up empty. -/
def exLabelOnlyDoc : Node :=
  .elem "div" [] [ .elem "h2" [] [.text "ソニー(株)"] ]

/-- C6, counterexample: with only the label resolvable, extraction succeeds
with empty price/change/percent/time fields — but the *code* field is not
the empty string: it falls back to the raw identifier `6758`. -/
theorem field_miss_claim_counterexample :
    find_text_pattern_selector exLabelOnlyDoc "ソニー(株)" "code" 8 = none ∧
    (scrape_dynamically "6758" exLabelOnlyDoc).1 =
      Except.ok ⟨"6758", "ソニー(株)", "", "", "", ""⟩ ∧
    ("6758" : String) ≠ "" := by
  refine ⟨by decide, rfl, by decide⟩

/-- The record assembled by a successful `scrape_dynamically` run. -/
def scrapedRecord (doc : Node) (code : String) : StockData :=
  let nameText := (find_name doc).2
  let sels := selectorsFor doc (get_code_type code) nameText code
  let scrapedCode := scrape_field doc
    (find_text_pattern_selector doc nameText "code" 8)
  { code := if scrapedCode == "" then code else scrapedCode
    name := nameText
    price := scrape_field doc sels.1
    change := scrape_field doc sels.2.1
    change_percent := scrape_field doc sels.2.2.1
    update_time := scrape_field doc sels.2.2.2.1 }

/-- C6 (amended): once Label resolution succeeds, extraction always returns
`ok`; each non-Label field is scraped independently through its own
selector, and `scrape_field` maps a missing selector, an unparsable
selector string, and a selector matching no element all to the empty
string; the code field falls back to the raw identifier when its scrape
comes up empty. -/
theorem field_miss_nonfatal (doc : Node) (code : String)
    (h : ¬ (find_name doc).2 = "") :
    ∃ r : StockData,
      (scrape_dynamically code doc).1 = Except.ok r ∧
      r.name = (find_name doc).2 ∧
      r.price = scrape_field doc
        (selectorsFor doc (get_code_type code) ((find_name doc).2) code).1 ∧
      r.change = scrape_field doc
        (selectorsFor doc (get_code_type code) ((find_name doc).2) code).2.1 ∧
      r.change_percent = scrape_field doc
        (selectorsFor doc (get_code_type code) ((find_name doc).2) code).2.2.1 ∧
      r.update_time = scrape_field doc
        (selectorsFor doc (get_code_type code) ((find_name doc).2) code).2.2.2.1 ∧
      (∀ d : Node, scrape_field d none = "") ∧
      (∀ (d : Node) (s : String), selParse s = none →
        scrape_field d (some s) = "") ∧
      (∀ (d : Node) (s : String) (sel : Sel), selParse s = some sel →
        (elemPaths d).find? (selMatches sel d) = none →
        scrape_field d (some s) = "") ∧
      (scrape_field doc
          (find_text_pattern_selector doc ((find_name doc).2) "code" 8) = "" →
        r.code = code) := by
  have hne : (((find_name doc).2) == "") = false := by
    cases hb : ((find_name doc).2) == "" with
    | false => rfl
    | true => exact absurd (by simpa using hb) h
  refine ⟨scrapedRecord doc code, ?_, rfl, rfl, rfl, rfl, rfl,
    fun d => rfl, ?_, ?_, ?_⟩
  · unfold scrape_dynamically scrapedRecord
    dsimp only
    rw [hne]
    rfl
  · intro d s hs
    simp [scrape_field, hs]
  · intro d s sel hs hf
    simp [scrape_field, hs, hf]
  · intro h0
    unfold scrapedRecord
    simp [h0]

theorem field_miss_nonfatal_witness :
    (¬ (find_name exLabelOnlyDoc).2 = "") ∧
    ∃ r : StockData,
      (scrape_dynamically "6758" exLabelOnlyDoc).1 = Except.ok r ∧
      r.name = (find_name exLabelOnlyDoc).2 ∧
      r.price = scrape_field exLabelOnlyDoc
        (selectorsFor exLabelOnlyDoc (get_code_type "6758")
          ((find_name exLabelOnlyDoc).2) "6758").1 ∧
      r.change = scrape_field exLabelOnlyDoc
        (selectorsFor exLabelOnlyDoc (get_code_type "6758")
          ((find_name exLabelOnlyDoc).2) "6758").2.1 ∧
      r.change_percent = scrape_field exLabelOnlyDoc
        (selectorsFor exLabelOnlyDoc (get_code_type "6758")
          ((find_name exLabelOnlyDoc).2) "6758").2.2.1 ∧
      r.update_time = scrape_field exLabelOnlyDoc
        (selectorsFor exLabelOnlyDoc (get_code_type "6758")
          ((find_name exLabelOnlyDoc).2) "6758").2.2.2.1 ∧
      (∀ d : Node, scrape_field d none = "") ∧
      (∀ (d : Node) (s : String), selParse s = none →
        scrape_field d (some s) = "") ∧
      (∀ (d : Node) (s : String) (sel : Sel), selParse s = some sel →
        (elemPaths d).find? (selMatches sel d) = none →
        scrape_field d (some s) = "") ∧
      (scrape_field exLabelOnlyDoc
          (find_text_pattern_selector exLabelOnlyDoc
            ((find_name exLabelOnlyDoc).2) "code" 8) = "" →
        r.code = "6758") :=
  ⟨by decide, field_miss_nonfatal exLabelOnlyDoc "6758" (by decide)⟩

/-- Ending in `=FX` forces the FX classification: no `=FX`-suffixed
identifier can uppercase to one of the DJI or Nikkei literals, whose last
character is never `X`. -/
theorem endsWith_fx_get_code_type (s : String)
    (h : strEndsWith s "=FX" = true) : get_code_type s = CodeType.fx := by
  have hsuf : "=FX".data <:+ s.data := by
    rw [← List.isSuffixOf_iff_suffix]
    exact h
  obtain ⟨pre, hpre⟩ := hsuf
  have hu : (rustToUppercase s).data.getLast? = some 'X' := by
    show (s.data.map Char.toUpper).getLast? = some 'X'
    rw [← hpre, List.map_append]
    rw [show List.map Char.toUpper "=FX".data = ['='] ++ ['F'] ++ ['X'] from by decide]
    rw [← List.append_assoc, ← List.append_assoc, List.getLast?_concat]
  have hne : ∀ lit : String, lit.data.getLast? ≠ some 'X' →
      (rustToUppercase s == lit) = false := by
    intro lit hlit
    cases hb : rustToUppercase s == lit with
    | false => rfl
    | true =>
      have heq : rustToUppercase s = lit := by simpa using hb
      rw [heq] at hu
      exact absurd hu hlit
  unfold get_code_type
  dsimp only
  rw [hne "%5EDJI" (by decide), hne "^DJI" (by decide), hne "DJI" (by decide),
    hne "998407.O" (by decide), hne ".N225" (by decide),
    hne "%5EN225" (by decide)]
  simp [h]

/-- C10: for an identifier ending in `=FX`, change-percent resolution is
never attempted, and any successful extraction carries an empty
change-percent field. -/
theorem fx_percent_never_attempted (doc : Node) (code : String)
    (h : strEndsWith code "=FX" = true) :
    FieldTag.changePercent ∉ (scrape_dynamically code doc).2 ∧
    ∀ r : StockData, (scrape_dynamically code doc).1 = Except.ok r →
      r.change_percent = "" := by
  have hfx := endsWith_fx_get_code_type code h
  unfold scrape_dynamically
  rw [hfx]
  dsimp only
  cases hb : ((find_name doc).2 == "") with
  | true =>
    rw [if_pos rfl]
    constructor
    · simp
    · intro r hr
      simp at hr
  | false =>
    rw [if_neg (by simp)]
    dsimp only [selectorsFor]
    constructor
    · simp
    · intro r hr
      simp only [Except.ok.injEq] at hr
      subst hr
      rfl

/-- A currency-pair page document whose label resolves (contains `/`). -/
def exFxDoc : Node := .elem "div" [] [ .elem "h2" [] [.text "米ドル/円"] ]

theorem fx_percent_never_attempted_witness :
    strEndsWith "USDJPY=FX" "=FX" = true ∧
    (FieldTag.changePercent ∉ (scrape_dynamically "USDJPY=FX" exFxDoc).2 ∧
     ∀ r : StockData,
       (scrape_dynamically "USDJPY=FX" exFxDoc).1 = Except.ok r →
       r.change_percent = "") :=
  ⟨by decide, fx_percent_never_attempted exFxDoc "USDJPY=FX" (by decide)⟩
